import Mathlib

/-!
Verification of the MetaReview statistical validation scripts.

The statistical core of the repository lives in three Python scripts that each
re-derive the inverse-variance / DerSimonian-Laird meta-analysis arithmetic:
`scripts/validate-comprehensive.py` (namespace `VC` below),
`scripts/validate-gold-standard.py` (namespace `GS`), and
`scripts/validate-hr.py` (namespace `VH`).

Modelling conventions:
* Exact numeric values are rationals (`ℚ`).  The external, pure statistical
  primitives the scripts call (`np.sqrt`, `np.log`, `scipy.stats.chi2.cdf`,
  `scipy.stats.norm.cdf`, `scipy.stats.t.cdf`) are abstracted as fields of an
  `Externals` record; every theorem is stated for an arbitrary interpretation
  of these fields, exactly as the scripts treat them as opaque library calls.
* Python-level division of `int`/`float` values raises `ZeroDivisionError`
  on a zero denominator; that fallible operation is embedded as `pydiv`
  in the `Except Unit` monad.
* numpy scalar arithmetic never raises: division by zero and invalid
  operations produce IEEE infinities and NaN.  Where the scripts manipulate
  numpy scalars we compute in the extended value domain `EV`
  (finite rational, `+inf`, `-inf`, or `NaN`) with total operations.
-/

namespace MetaReview

/-- Extended numeric value domain mirroring IEEE semantics of numpy scalars:
a finite value, positive or negative infinity, or NaN. -/
inductive EV where
  | fin (q : ℚ)
  | pinf
  | ninf
  | nan
deriving DecidableEq

namespace EV

/-- IEEE addition on extended values. -/
def add : EV → EV → EV
  | nan, _ => nan
  | _, nan => nan
  | fin a, fin b => fin (a + b)
  | pinf, ninf => nan
  | ninf, pinf => nan
  | pinf, _ => pinf
  | _, pinf => pinf
  | ninf, _ => ninf
  | _, ninf => ninf

/-- IEEE negation on extended values. -/
def neg : EV → EV
  | nan => nan
  | pinf => ninf
  | ninf => pinf
  | fin a => fin (-a)

/-- IEEE subtraction on extended values. -/
def sub (x y : EV) : EV := add x (neg y)

/-- IEEE multiplication on extended values (`0 * inf = NaN`). -/
def mul : EV → EV → EV
  | nan, _ => nan
  | _, nan => nan
  | fin a, fin b => fin (a * b)
  | fin a, pinf => if a = 0 then nan else if 0 < a then pinf else ninf
  | pinf, fin a => if a = 0 then nan else if 0 < a then pinf else ninf
  | fin a, ninf => if a = 0 then nan else if 0 < a then ninf else pinf
  | ninf, fin a => if a = 0 then nan else if 0 < a then ninf else pinf
  | pinf, pinf => pinf
  | ninf, ninf => pinf
  | pinf, ninf => ninf
  | ninf, pinf => ninf

/-- IEEE division on extended values: `x / 0` is a signed infinity for
`x ≠ 0` and NaN for `x = 0` (numpy emits a warning but no exception). -/
def div : EV → EV → EV
  | nan, _ => nan
  | _, nan => nan
  | fin a, fin b =>
      if b = 0 then (if a = 0 then nan else if 0 < a then pinf else ninf)
      else fin (a / b)
  | fin _, pinf => fin 0
  | fin _, ninf => fin 0
  | pinf, fin b => if 0 ≤ b then pinf else ninf
  | ninf, fin b => if 0 ≤ b then ninf else pinf
  | pinf, pinf => nan
  | pinf, ninf => nan
  | ninf, pinf => nan
  | ninf, ninf => nan

/-- Squaring (`x ** 2`) on extended values. -/
def pow2 : EV → EV
  | nan => nan
  | pinf => pinf
  | ninf => pinf
  | fin a => fin (a ^ 2)

/-- Absolute value on extended values. -/
def abs : EV → EV
  | nan => nan
  | pinf => pinf
  | ninf => pinf
  | fin a => fin |a|

/-- Embedding of `np.sqrt` on extended values, given an abstract square root `s` on
nonnegative rationals: NaN on negative arguments, never an exception. -/
def sqrtE (s : ℚ → ℚ) : EV → EV
  | nan => nan
  | ninf => nan
  | pinf => pinf
  | fin a => if a < 0 then nan else fin (s a)

/-- Embedding of `np.log` of a finite value, given an abstract logarithm `lg` on positive
rationals: `-inf` at zero, NaN on negatives, never an exception. -/
def logE (lg : ℚ → ℚ) (a : ℚ) : EV :=
  if 0 < a then fin (lg a) else if a = 0 then ninf else nan

/-- Embedding of `np.sum` over a list of extended values (left fold, as numpy reduces). -/
def sum (l : List EV) : EV := l.foldl add (fin 0)

/-- Embedding of `np.mean` over a list of extended values: elementwise sum divided by the
length; on an empty list this is `0/0 = NaN` (numpy warns, returns NaN). -/
def mean (l : List EV) : EV := div (sum l) (fin (l.length : ℚ))

end EV

/-- Python true division of exact scalars (`int`/`float`): raises
`ZeroDivisionError` when the denominator is zero, otherwise exact. -/
def pydiv (a b : ℚ) : Except Unit ℚ :=
  if b = 0 then .error () else .ok (a / b)

/-- The pure statistical primitives imported by the scripts
(numpy square root and logarithm, scipy chi-squared / standard normal CDFs,
and the Student-t CDF applied to numpy scalars), treated as opaque. -/
structure Externals where
  sqrt : ℚ → ℚ
  log : ℚ → ℚ
  chi2cdf : ℚ → ℤ → ℚ
  normcdf : ℚ → ℚ
  tcdf : EV → ℤ → EV

/-- A concrete interpretation of the external primitives, used to
instantiate universally quantified theorems at closed inputs. -/
def E0 : Externals :=
  { sqrt := fun q => q
    log := fun q => q
    chi2cdf := fun _ _ => 0
    normcdf := fun q => q
    tcdf := fun _ _ => EV.nan }

/-- Model selector of `meta_analysis(..., model=...)`. -/
inductive Model where
  | fixed
  | random
deriving DecidableEq

/-- The heterogeneity dictionary `{Q, df, pValue, I2, tau2, tau, H2}`
produced by the scripts. -/
structure Het where
  Q : ℚ
  df : ℤ
  pValue : ℚ
  I2 : ℚ
  tau2 : ℚ
  tau : ℚ
  H2 : ℚ
deriving DecidableEq

/-- The dictionary returned by `meta_analysis` in
`validate-comprehensive.py`.  Keys that are present only on the `k ≥ 2`
code path (`z`, `pValue`, `fixed_summary`, `fixed_se`) are `Option`s:
the `df <= 0` early return omits them. -/
structure MetaResult where
  summary : ℚ
  se : ℚ
  z : Option ℚ
  pValue : Option ℚ
  heterogeneity : Het
  weights_fe : List ℚ
  weights_re : List ℚ
  fixed_summary : Option ℚ
  fixed_se : Option ℚ
deriving DecidableEq

namespace VC

/-- The `correct_zero_cells` helper from `validate-comprehensive.py`: add the 0.5/1
continuity correction when any cell is zero or an event count equals its
arm total, otherwise return the counts unchanged. -/
def correct_zero_cells (events1 total1 events2 total2 : ℚ) : ℚ × ℚ × ℚ × ℚ :=
  if events1 = 0 ∨ events2 = 0 ∨ events1 = total1 ∨ events2 = total2 then
    (events1 + 1/2, total1 + 1, events2 + 1/2, total2 + 1)
  else
    (events1, total1, events2, total2)

/-- The `hedges_g` helper from `validate-comprehensive.py`.  `n1`, `n2` are Python
ints, the means and SDs floats.  The pooled-SD step divides by
`df = n1 + n2 - 2` with Python semantics (raises on zero), `np.sqrt` and
the numpy scalar products are total, and the `sei` step divides the Python
int `n1 + n2` by the Python int `n1 * n2` (raises on zero). -/
def hedges_g (E : Externals) (mean1 sd1 : ℚ) (n1 : ℕ) (mean2 sd2 : ℚ)
    (n2 : ℕ) : Except Unit (EV × EV) := do
  let df : ℤ := (n1 : ℤ) + (n2 : ℤ) - 2
  let q ← pydiv (((n1 : ℚ) - 1) * sd1 ^ 2 + ((n2 : ℚ) - 1) * sd2 ^ 2) (df : ℚ)
  let sp := EV.sqrtE E.sqrt (EV.fin q)
  let cohen_d := EV.div (EV.fin (mean1 - mean2)) sp
  let jq ← pydiv 3 (4 * (df : ℚ) - 1)
  let J : ℚ := 1 - jq
  let yi := EV.mul cohen_d (EV.fin J)
  let r1 ← pydiv ((n1 : ℚ) + (n2 : ℚ)) ((n1 : ℚ) * (n2 : ℚ))
  let sei := EV.mul
    (EV.sqrtE E.sqrt
      (EV.add (EV.fin r1) (EV.div (EV.pow2 yi) (EV.fin (2 * ((n1 : ℚ) + (n2 : ℚ)))))))
    (EV.fin J)
  return (yi, sei)

/-- The `meta_analysis` function from `validate-comprehensive.py`, over the parallel
`yi` / `vi` arrays represented as a list of pairs `(yi, vi)`. -/
def meta_analysis (E : Externals) (model : Model) (es : List (ℚ × ℚ)) :
    MetaResult :=
  let k := es.length
  let df : ℤ := (k : ℤ) - 1
  let w_fe := es.map fun p => 1 / p.2
  let sum_w_fe := w_fe.sum
  let summary_fe := (es.map fun p => (1 / p.2) * p.1).sum / sum_w_fe
  let se_fe := E.sqrt (1 / sum_w_fe)
  if df ≤ 0 then
    { summary := summary_fe
      se := se_fe
      z := none
      pValue := none
      heterogeneity := ⟨0, 0, 1, 0, 0, 0, 1⟩
      weights_fe := w_fe.map fun w => w / sum_w_fe * 100
      weights_re := w_fe.map fun w => w / sum_w_fe * 100
      fixed_summary := none
      fixed_se := none }
  else
    let Q := (es.map fun p => (1 / p.2) * (p.1 - summary_fe) ^ 2).sum
    let Q_pvalue := 1 - E.chi2cdf Q df
    let C := sum_w_fe - (es.map fun p => (1 / p.2) ^ 2).sum / sum_w_fe
    let tau2 := max 0 ((Q - (df : ℚ)) / C)
    let tau := E.sqrt tau2
    let I2 := if 0 < Q then max 0 ((Q - (df : ℚ)) / Q * 100) else 0
    let H2 := if 0 < df then Q / (df : ℚ) else 1
    let w_re := es.map fun p => 1 / (p.2 + tau2)
    let sum_w_re := w_re.sum
    let summary_re := (es.map fun p => (1 / (p.2 + tau2)) * p.1).sum / sum_w_re
    let se_re := E.sqrt (1 / sum_w_re)
    let summary := match model with
      | .fixed => summary_fe
      | .random => summary_re
    let se := match model with
      | .fixed => se_fe
      | .random => se_re
    let z := summary / se
    let p := 2 * (1 - E.normcdf |z|)
    { summary := summary
      se := se
      z := some z
      pValue := some p
      heterogeneity := ⟨Q, df, Q_pvalue, I2, tau2, tau, H2⟩
      weights_fe := w_fe.map fun w => w / sum_w_fe * 100
      weights_re := w_re.map fun w => w / sum_w_re * 100
      fixed_summary := some summary_fe
      fixed_se := some se_fe }

end VC

/-- The dictionary built by the module-level steps of
`validate-gold-standard.py` (fixed effects, heterogeneity, random
effects, per-study weights). -/
structure GSResult where
  summary_fe : ℚ
  se_fe : ℚ
  Q : ℚ
  df : ℤ
  Q_pvalue : ℚ
  tau2 : ℚ
  tau : ℚ
  I2 : ℚ
  H2 : ℚ
  summary_re : ℚ
  se_re : ℚ
  z_re : ℚ
  p_re : ℚ
  weights_fe_pct : List ℚ
  weights_re_pct : List ℚ
deriving DecidableEq

/-- The Egger regression output `{intercept, se, tValue, pValue, df}` from
Step 5 of `validate-gold-standard.py`; all statistics are numpy scalars
(extended values), the degrees of freedom a Python int. -/
structure EggerResult where
  intercept : EV
  se : EV
  tValue : EV
  pValue : EV
  df : ℤ
deriving DecidableEq

namespace GS

/-- The `log_odds_ratio` helper of `validate-gold-standard.py`, which
applies no zero-cell correction: `a, b, c, d` are Python ints, so the
divisions `(a*d)/(b*c)` and `1/a + 1/b + 1/c + 1/d` raise
`ZeroDivisionError` on a zero denominator, while `np.log` of the
already-computed quotient is total (producing `-inf`/NaN on
non-positive arguments, never an exception). -/
def log_odds (E : Externals) (events1 total1 events2 total2 : ℤ) :
    Except Unit (EV × EV) := do
  let a := events1
  let b := total1 - events1
  let c := events2
  let d := total2 - events2
  let r ← pydiv ((a : ℚ) * (d : ℚ)) ((b : ℚ) * (c : ℚ))
  let yi := EV.logE E.log r
  let ia ← pydiv 1 (a : ℚ)
  let ib ← pydiv 1 (b : ℚ)
  let ic ← pydiv 1 (c : ℚ)
  let idd ← pydiv 1 (d : ℚ)
  let sei := EV.sqrtE E.sqrt (EV.fin (ia + ib + ic + idd))
  return (yi, sei)

/-- Steps 2-4 of `validate-gold-standard.py` (module level, no `k = 1`
branch): fixed effects, the Cochran Q statistic / DerSimonian-Laird heterogeneity,
random effects, and the per-study weight percentages, over the parallel
`yi_arr` / `vi_arr` arrays represented as a list of pairs. -/
def stats (E : Externals) (es : List (ℚ × ℚ)) : GSResult :=
  let w_fe := es.map fun p => 1 / p.2
  let sum_w_fe := w_fe.sum
  let summary_fe := (es.map fun p => (1 / p.2) * p.1).sum / sum_w_fe
  let se_fe := E.sqrt (1 / sum_w_fe)
  let k := es.length
  let df : ℤ := (k : ℤ) - 1
  let Q := (es.map fun p => (1 / p.2) * (p.1 - summary_fe) ^ 2).sum
  let Q_pvalue := 1 - E.chi2cdf Q df
  let C := sum_w_fe - (es.map fun p => (1 / p.2) ^ 2).sum / sum_w_fe
  let tau2 := max 0 ((Q - (df : ℚ)) / C)
  let tau := E.sqrt tau2
  let I2 := if 0 < Q then max 0 ((Q - (df : ℚ)) / Q * 100) else 0
  let H2 := if 0 < df then Q / (df : ℚ) else 1
  let w_re := es.map fun p => 1 / (p.2 + tau2)
  let sum_w_re := w_re.sum
  let summary_re := (es.map fun p => (1 / (p.2 + tau2)) * p.1).sum / sum_w_re
  let se_re := E.sqrt (1 / sum_w_re)
  let z_re := summary_re / se_re
  let p_re := 2 * (1 - E.normcdf |z_re|)
  { summary_fe := summary_fe
    se_fe := se_fe
    Q := Q
    df := df
    Q_pvalue := Q_pvalue
    tau2 := tau2
    tau := tau
    I2 := I2
    H2 := H2
    summary_re := summary_re
    se_re := se_re
    z_re := z_re
    p_re := p_re
    weights_fe_pct := w_fe.map fun w => w / sum_w_fe * 100
    weights_re_pct := w_re.map fun w => w / sum_w_re * 100 }

/-- Step 5 of `validate-gold-standard.py`: the Egger regression over the
per-study `(yi, sei)` pairs.  All regression quantities are numpy
scalars with total IEEE arithmetic; the single Python-level division
`1.0 / n_egger` raises `ZeroDivisionError` when the study list is
empty. -/
def eggers_test (E : Externals) (es : List (ℚ × ℚ)) :
    Except Unit EggerResult := do
  let x := es.map fun p => EV.div (EV.fin 1) (EV.fin p.2)
  let y := es.map fun p => EV.div (EV.fin p.1) (EV.fin p.2)
  let n := es.length
  let mean_x := EV.mean x
  let mean_y := EV.mean y
  let Sxx := EV.sum (x.map fun t => EV.pow2 (EV.sub t mean_x))
  let Sxy := EV.sum (List.zipWith
    (fun a b => EV.mul (EV.sub a mean_x) (EV.sub b mean_y)) x y)
  let slope := EV.div Sxy Sxx
  let intercept := EV.sub mean_y (EV.mul slope mean_x)
  let residuals := List.zipWith
    (fun xi yi => EV.sub yi (EV.add intercept (EV.mul slope xi))) x y
  let sse := EV.sum (residuals.map EV.pow2)
  let df : ℤ := (n : ℤ) - 2
  let mse := EV.div sse (EV.fin (df : ℚ))
  let invn ← pydiv 1 (n : ℚ)
  let se_intercept := EV.sqrtE E.sqrt
    (EV.mul mse (EV.add (EV.fin invn) (EV.div (EV.pow2 mean_x) Sxx)))
  let t := EV.div intercept se_intercept
  let p := EV.mul (EV.fin 2) (EV.sub (EV.fin 1) (E.tcdf (EV.abs t) df))
  return { intercept := intercept, se := se_intercept, tValue := t,
           pValue := p, df := df }

end GS

/-- The composite of pooled, fixed and heterogeneity results produced by
`meta_analysis_hr` in `validate-hr.py` (per-study back-transforms
omitted): both the selected-model pooled estimate and the fixed-effects
estimate carry a z statistic and p-value. -/
structure VHResult where
  summary : ℚ
  se : ℚ
  z : ℚ
  pValue : ℚ
  heterogeneity : Het
  weights_re : List ℚ
  fixed_summary : ℚ
  fixed_se : ℚ
  fixed_z : ℚ
  fixed_pValue : ℚ
deriving DecidableEq

namespace VH

/-- Steps 2-6 of `meta_analysis_hr` in `validate-hr.py`, over the
parallel `yi` / `vi` arrays represented as a list of pairs: fixed
effects, the `df <= 0` degenerate branch, heterogeneity, random
effects, the z test on the selected model, and the always-computed
fixed-effects cross-reference. -/
def metaCore (E : Externals) (model : Model) (es : List (ℚ × ℚ)) :
    VHResult :=
  let k := es.length
  let df : ℤ := (k : ℤ) - 1
  let w_fe := es.map fun p => 1 / p.2
  let sum_w_fe := w_fe.sum
  let summary_fe := (es.map fun p => (1 / p.2) * p.1).sum / sum_w_fe
  let se_fe := E.sqrt (1 / sum_w_fe)
  let branch : Het × List ℚ × ℚ × ℚ :=
    if df ≤ 0 then
      (⟨0, 0, 1, 0, 0, 0, 1⟩,
       w_fe.map fun w => w / sum_w_fe * 100,
       summary_fe, se_fe)
    else
      let Q := (es.map fun p => (1 / p.2) * (p.1 - summary_fe) ^ 2).sum
      let Q_pvalue := 1 - E.chi2cdf Q df
      let sum_w2 := (es.map fun p => (1 / p.2) ^ 2).sum
      let C := sum_w_fe - sum_w2 / sum_w_fe
      let tau2 := max 0 ((Q - (df : ℚ)) / C)
      let tau := E.sqrt tau2
      let I2 := if 0 < Q then max 0 ((Q - (df : ℚ)) / Q * 100) else 0
      let H2 := Q / (df : ℚ)
      let w_re := es.map fun p => 1 / (p.2 + tau2)
      let sum_w_re := w_re.sum
      let summary_re := (es.map fun p => (1 / (p.2 + tau2)) * p.1).sum / sum_w_re
      let se_re := E.sqrt (1 / sum_w_re)
      (⟨Q, df, Q_pvalue, I2, tau2, tau, H2⟩,
       w_re.map fun w => w / sum_w_re * 100,
       match model with
       | .fixed => summary_fe
       | .random => summary_re,
       match model with
       | .fixed => se_fe
       | .random => se_re)
  let het := branch.1
  let weights_re := branch.2.1
  let summary := branch.2.2.1
  let se := branch.2.2.2
  let z := summary / se
  let p := 2 * (1 - E.normcdf |z|)
  let z_fe := summary_fe / se_fe
  let p_fe := 2 * (1 - E.normcdf |z_fe|)
  { summary := summary
    se := se
    z := z
    pValue := p
    heterogeneity := het
    weights_re := weights_re
    fixed_summary := summary_fe
    fixed_se := se_fe
    fixed_z := z_fe
    fixed_pValue := p_fe }

end VH

/-!  Theorems settling the claims.  -/

/-- Claim C3: for a single-study input (`k = 1`), `meta_analysis` in
`validate-comprehensive.py` returns exactly the degenerate heterogeneity
tuple `Q=0, df=0, pValue=1, I2=0, tau2=0, tau=0, H2=1`, regardless of
the effect size or variance of that study (and of the model and of the
external statistical primitives). -/
theorem single_study_degenerate (E : Externals) (m : Model) (y v : ℚ) :
    (VC.meta_analysis E m [(y, v)]).heterogeneity =
      ⟨0, 0, 1, 0, 0, 0, 1⟩ := rfl

/-- Claim C9: the zero-cell correction of `validate-comprehensive.py`
applied to `events1=0, total1=20, events2=5, total2=22` yields corrected
counts whose derived cells are `a = 0.5` and `b = corrected total1 minus a = 20.5`,
and re-applying the correction to the already-corrected counts leaves
them unchanged (no double-correction). -/
theorem zero_cell_correction_once :
    VC.correct_zero_cells 0 20 5 22 = (1/2, 21, 11/2, 23) ∧
    (VC.correct_zero_cells 0 20 5 22).1 = 1/2 ∧
    (VC.correct_zero_cells 0 20 5 22).2.1 - (VC.correct_zero_cells 0 20 5 22).1 = 41/2 ∧
    VC.correct_zero_cells (1/2) 21 (11/2) 23 = (1/2, 21, 11/2, 23) := by
  refine ⟨?_, ?_, ?_, ?_⟩ <;> norm_num [VC.correct_zero_cells]

/-- Claim C1: for every effect-size list with `k ≥ 2` studies and all
sampling variances positive, the heterogeneity stage of `meta_analysis`
computes `df = k-1`, `Q = Σ w_i (yi - ybar)^2` with fixed weights
`w_i = 1/vi` and weighted mean `ybar = Σ(w_i yi)/Σw_i`, the p-value as
the upper chi-squared tail `1 - chiSquareCDF(Q, df)`,
`tau2 = max 0 ((Q - df)/C)` with `C = Σw_i - Σ(w_i^2)/Σw_i`,
`tau = sqrt tau2`, `I2 = max 0 ((Q - df)/Q * 100)` when `Q > 0` and `0`
otherwise, and `H2 = Q/df`. -/
theorem heterogeneity_formulas (E : Externals) (m : Model)
    (es : List (ℚ × ℚ)) (hk : 2 ≤ es.length) (hv : ∀ p ∈ es, 0 < p.2) :
    let k := es.length
    let sumw := (es.map fun p => 1 / p.2).sum
    let ybar := (es.map fun p => (1 / p.2) * p.1).sum / sumw
    let Qs := (es.map fun p => (1 / p.2) * (p.1 - ybar) ^ 2).sum
    let Cs := sumw - (es.map fun p => (1 / p.2) ^ 2).sum / sumw
    let het := (VC.meta_analysis E m es).heterogeneity
    het.df = (k : ℤ) - 1 ∧
    het.Q = Qs ∧
    het.pValue = 1 - E.chi2cdf Qs ((k : ℤ) - 1) ∧
    het.tau2 = max 0 ((Qs - (((k : ℤ) - 1 : ℤ) : ℚ)) / Cs) ∧
    het.tau = E.sqrt het.tau2 ∧
    het.I2 = (if 0 < Qs then
        max 0 ((Qs - (((k : ℤ) - 1 : ℤ) : ℚ)) / Qs * 100) else 0) ∧
    het.H2 = Qs / (((k : ℤ) - 1 : ℤ) : ℚ) := by
  have h2 : (2 : ℤ) ≤ (es.length : ℤ) := by exact_mod_cast hk
  have hdf : ¬((es.length : ℤ) - 1 ≤ 0) := by omega
  have hdfpos : (0 : ℤ) < (es.length : ℤ) - 1 := by omega
  simp only [VC.meta_analysis, if_neg hdf, if_pos hdfpos]
  exact ⟨trivial, trivial, trivial, trivial, trivial, trivial, trivial⟩

/-- Concrete instantiation of `heterogeneity_formulas` at the two-study
list `[(1, 1), (2, 2)]` with a concrete interpretation of the external
primitives. -/
theorem heterogeneity_formulas_witness :
    let es : List (ℚ × ℚ) := [(1, 1), (2, 2)]
    let k := es.length
    let sumw := (es.map fun p => 1 / p.2).sum
    let ybar := (es.map fun p => (1 / p.2) * p.1).sum / sumw
    let Qs := (es.map fun p => (1 / p.2) * (p.1 - ybar) ^ 2).sum
    let Cs := sumw - (es.map fun p => (1 / p.2) ^ 2).sum / sumw
    let het := (VC.meta_analysis E0 Model.random es).heterogeneity
    het.df = (k : ℤ) - 1 ∧
    het.Q = Qs ∧
    het.pValue = 1 - E0.chi2cdf Qs ((k : ℤ) - 1) ∧
    het.tau2 = max 0 ((Qs - (((k : ℤ) - 1 : ℤ) : ℚ)) / Cs) ∧
    het.tau = E0.sqrt het.tau2 ∧
    het.I2 = (if 0 < Qs then
        max 0 ((Qs - (((k : ℤ) - 1 : ℤ) : ℚ)) / Qs * 100) else 0) ∧
    het.H2 = Qs / (((k : ℤ) - 1 : ℤ) : ℚ) :=
  heterogeneity_formulas E0 Model.random [(1, 1), (2, 2)]
    (by decide) (by decide)

/-- Claim C10: for every effect-size list with `k ≥ 2` and all variances
positive, the three independent re-derivations of the pooling and
heterogeneity arithmetic agree on the same `yi`/`vi` input: the
heterogeneity statistics, the fixed-effect summary and standard error,
and the random-effects summary and standard error coincide between
`meta_analysis` (validate-comprehensive), `meta_analysis_hr`
(validate-hr) and the module-level computation of
validate-gold-standard. -/
theorem implementations_agree (E : Externals) (es : List (ℚ × ℚ))
    (hk : 2 ≤ es.length) (hv : ∀ p ∈ es, 0 < p.2) :
    let a := VC.meta_analysis E Model.random es
    let b := VH.metaCore E Model.random es
    let g := GS.stats E es
    a.heterogeneity = b.heterogeneity ∧
    a.heterogeneity.Q = g.Q ∧ a.heterogeneity.df = g.df ∧
    a.heterogeneity.tau2 = g.tau2 ∧ a.heterogeneity.tau = g.tau ∧
    a.heterogeneity.I2 = g.I2 ∧ a.heterogeneity.H2 = g.H2 ∧
    a.fixed_summary = some g.summary_fe ∧ a.fixed_se = some g.se_fe ∧
    b.fixed_summary = g.summary_fe ∧ b.fixed_se = g.se_fe ∧
    a.summary = g.summary_re ∧ a.se = g.se_re ∧
    b.summary = g.summary_re ∧ b.se = g.se_re := by
  have h2 : (2 : ℤ) ≤ (es.length : ℤ) := by exact_mod_cast hk
  have hdf : ¬((es.length : ℤ) - 1 ≤ 0) := by omega
  have hdfpos : (0 : ℤ) < (es.length : ℤ) - 1 := by omega
  simp only [VC.meta_analysis, VH.metaCore, GS.stats, if_neg hdf,
    if_pos hdfpos]
  exact ⟨trivial, trivial, trivial, trivial, trivial, trivial, trivial,
    trivial, trivial, trivial, trivial, trivial, trivial, trivial,
    trivial⟩

/-- Concrete instantiation of `implementations_agree` at the two-study
list `[(1, 1), (2, 2)]`. -/
theorem implementations_agree_witness :
    let es : List (ℚ × ℚ) := [(1, 1), (2, 2)]
    let a := VC.meta_analysis E0 Model.random es
    let b := VH.metaCore E0 Model.random es
    let g := GS.stats E0 es
    a.heterogeneity = b.heterogeneity ∧
    a.heterogeneity.Q = g.Q ∧ a.heterogeneity.df = g.df ∧
    a.heterogeneity.tau2 = g.tau2 ∧ a.heterogeneity.tau = g.tau ∧
    a.heterogeneity.I2 = g.I2 ∧ a.heterogeneity.H2 = g.H2 ∧
    a.fixed_summary = some g.summary_fe ∧ a.fixed_se = some g.se_fe ∧
    b.fixed_summary = g.summary_fe ∧ b.fixed_se = g.se_fe ∧
    a.summary = g.summary_re ∧ a.se = g.se_re ∧
    b.summary = g.summary_re ∧ b.se = g.se_re :=
  implementations_agree E0 [(1, 1), (2, 2)] (by decide) (by decide)

/-- Claim C7, counterexample: for the single-study input `[(0, 1)]`,
`meta_analysis` in `validate-comprehensive.py` takes the `df <= 0` early
return, whose dictionary carries no `z`, no `pValue`, and no
`fixed_summary`/`fixed_se` keys — so it is false that for every input
study set, including `k = 1`, both pooled estimates with `z` and
`pValue` are returned in the composite result. -/
theorem k1_composite_missing_fields :
    (VC.meta_analysis E0 Model.random [(0, 1)]).z = none ∧
    (VC.meta_analysis E0 Model.random [(0, 1)]).pValue = none ∧
    (VC.meta_analysis E0 Model.random [(0, 1)]).fixed_summary = none ∧
    (VC.meta_analysis E0 Model.random [(0, 1)]).fixed_se = none :=
  ⟨rfl, rfl, rfl, rfl⟩

/-- Claim C7, amended: for every study set with `k ≥ 2`, the composite
result of `meta_analysis` carries the fixed-effect summary and standard
error together with the pooled summary of the selected model and standard
error (the random-effects estimate under the default random model), and
the `z` and `pValue` of the selected model; for `k = 1` the composite
instead carries only a single summary and se and omits `z`, `pValue`
and the fixed-effect fields. -/
theorem both_models_reported_k2 (E : Externals) (m : Model)
    (es : List (ℚ × ℚ)) (hk : 2 ≤ es.length) :
    let sumw := (es.map fun p => 1 / p.2).sum
    let ybar := (es.map fun p => (1 / p.2) * p.1).sum / sumw
    let Qs := (es.map fun p => (1 / p.2) * (p.1 - ybar) ^ 2).sum
    let Cs := sumw - (es.map fun p => (1 / p.2) ^ 2).sum / sumw
    let tau2 := max 0 ((Qs - (((es.length : ℤ) - 1 : ℤ) : ℚ)) / Cs)
    let sumwre := (es.map fun p => 1 / (p.2 + tau2)).sum
    let r := VC.meta_analysis E m es
    r.fixed_summary = some ybar ∧
    r.fixed_se = some (E.sqrt (1 / sumw)) ∧
    (m = Model.random →
      r.summary = (es.map fun p => (1 / (p.2 + tau2)) * p.1).sum / sumwre ∧
      r.se = E.sqrt (1 / sumwre)) ∧
    r.z = some (r.summary / r.se) ∧
    r.pValue = some (2 * (1 - E.normcdf |r.summary / r.se|)) := by
  have h2 : (2 : ℤ) ≤ (es.length : ℤ) := by exact_mod_cast hk
  have hdf : ¬((es.length : ℤ) - 1 ≤ 0) := by omega
  simp only [VC.meta_analysis, if_neg hdf]
  refine ⟨trivial, trivial, fun hm => ?_, trivial, trivial⟩
  subst hm
  exact ⟨rfl, rfl⟩

/-- Concrete instantiation of `both_models_reported_k2` at the two-study
list `[(1, 1), (2, 2)]` under the random-effects model. -/
theorem both_models_reported_k2_witness :
    let es : List (ℚ × ℚ) := [(1, 1), (2, 2)]
    let sumw := (es.map fun p => 1 / p.2).sum
    let ybar := (es.map fun p => (1 / p.2) * p.1).sum / sumw
    let Qs := (es.map fun p => (1 / p.2) * (p.1 - ybar) ^ 2).sum
    let Cs := sumw - (es.map fun p => (1 / p.2) ^ 2).sum / sumw
    let tau2 := max 0 ((Qs - (((es.length : ℤ) - 1 : ℤ) : ℚ)) / Cs)
    let sumwre := (es.map fun p => 1 / (p.2 + tau2)).sum
    let r := VC.meta_analysis E0 Model.random es
    r.fixed_summary = some ybar ∧
    r.fixed_se = some (E0.sqrt (1 / sumw)) ∧
    (Model.random = Model.random →
      r.summary = (es.map fun p => (1 / (p.2 + tau2)) * p.1).sum / sumwre ∧
      r.se = E0.sqrt (1 / sumwre)) ∧
    r.z = some (r.summary / r.se) ∧
    r.pValue = some (2 * (1 - E0.normcdf |r.summary / r.se|)) :=
  both_models_reported_k2 E0 Model.random [(1, 1), (2, 2)] (by decide)

/-- Sum of squares is bounded by the square of the sum for nonnegative
entries (the cross terms are nonnegative). -/
lemma sum_sq_le_sq_sum (l : List ℚ) (h : ∀ x ∈ l, 0 ≤ x) :
    (l.map fun x => x ^ 2).sum ≤ l.sum ^ 2 := by
  induction l with
  | nil => simp
  | cons a t ih =>
    have ha : 0 ≤ a := h a (List.mem_cons_self a t)
    have ht : ∀ x ∈ t, 0 ≤ x := fun x hx => h x (List.mem_cons_of_mem a hx)
    have hts : 0 ≤ t.sum := List.sum_nonneg ht
    have hih := ih ht
    simp only [List.map_cons, List.sum_cons]
    nlinarith [mul_nonneg ha hts]

/-- For at least two strictly positive entries the inequality is strict:
the cross term `2 a (sum of the rest)` is strictly positive. -/
lemma sum_sq_lt_sq_sum (l : List ℚ) (h : ∀ x ∈ l, 0 < x)
    (hk : 2 ≤ l.length) : (l.map fun x => x ^ 2).sum < l.sum ^ 2 := by
  rcases l with _ | ⟨a, t⟩
  · simp at hk
  rcases t with _ | ⟨b, t⟩
  · simp at hk
  have ha : 0 < a := h a (by simp)
  have htpos : ∀ x ∈ b :: t, 0 < x := fun x hx =>
    h x (List.mem_cons_of_mem a hx)
  have hts : 0 < (b :: t).sum :=
    List.sum_pos (b :: t) htpos (by simp)
  have hle := sum_sq_le_sq_sum (b :: t) (fun x hx => (htpos x hx).le)
  simp only [List.map_cons, List.sum_cons] at hle hts ⊢
  nlinarith [mul_pos ha hts, hle]

/-- The DerSimonian-Laird denominator `C = Σw - Σ(w^2)/Σw` is strictly
positive whenever there are at least two studies with positive
variances. -/
lemma Cval_pos (es : List (ℚ × ℚ)) (hk : 2 ≤ es.length)
    (hv : ∀ p ∈ es, 0 < p.2) :
    0 < (es.map fun p => 1 / p.2).sum -
        (es.map fun p => (1 / p.2) ^ 2).sum /
          (es.map fun p => 1 / p.2).sum := by
  have hpos : ∀ x ∈ es.map fun p => 1 / p.2, 0 < x := by
    intro x hx
    obtain ⟨p, hp, rfl⟩ := List.mem_map.1 hx
    exact div_pos one_pos (hv p hp)
  have hne : (es.map fun p => 1 / p.2) ≠ [] := by
    intro h
    have := List.length_eq_zero.2 h
    simp only [List.length_map] at this
    omega
  have hS : 0 < (es.map fun p => 1 / p.2).sum :=
    List.sum_pos _ hpos hne
  have hsq : (es.map fun p => (1 / p.2) ^ 2) =
      (es.map fun p => 1 / p.2).map fun x => x ^ 2 := by
    rw [List.map_map]
    rfl
  have hlen : 2 ≤ (es.map fun p => 1 / p.2).length := by
    simpa using hk
  have hlt := sum_sq_lt_sq_sum _ hpos hlen
  rw [hsq, sub_pos, div_lt_iff₀ hS]
  nlinarith

/-- Claim C4: for every effect-size list with all variances positive the
DerSimonian-Laird estimate `tau2` is nonnegative, and whenever
`Q ≤ df` it equals zero exactly (the moment estimator is truncated at
zero, and its untruncated numerator is nonpositive over the positive
denominator `C`). -/
theorem tau2_nonneg_truncated (E : Externals) (m : Model)
    (es : List (ℚ × ℚ)) (hv : ∀ p ∈ es, 0 < p.2) :
    0 ≤ (VC.meta_analysis E m es).heterogeneity.tau2 ∧
    ((VC.meta_analysis E m es).heterogeneity.Q ≤
        (((VC.meta_analysis E m es).heterogeneity.df : ℤ) : ℚ) →
      (VC.meta_analysis E m es).heterogeneity.tau2 = 0) := by
  by_cases hdf : (es.length : ℤ) - 1 ≤ 0
  · have hhet : (VC.meta_analysis E m es).heterogeneity =
        ⟨0, 0, 1, 0, 0, 0, 1⟩ := by
      simp only [VC.meta_analysis, if_pos hdf]
    rw [hhet]
    norm_num
  · have hk : 2 ≤ es.length := by
      have h1 : 1 < (es.length : ℤ) := by omega
      exact_mod_cast h1
    have hC := Cval_pos es hk hv
    simp only [VC.meta_analysis, if_neg hdf]
    constructor
    · exact le_max_left 0 _
    · intro hQ
      apply max_eq_left
      apply div_nonpos_of_nonpos_of_nonneg _ hC.le
      exact sub_nonpos.2 hQ

/-- Concrete instantiation of `tau2_nonneg_truncated` at the two-study
list `[(1, 1), (2, 2)]`. -/
theorem tau2_nonneg_truncated_witness :
    0 ≤ (VC.meta_analysis E0 Model.random [(1, 1), (2, 2)]).heterogeneity.tau2 ∧
    ((VC.meta_analysis E0 Model.random [(1, 1), (2, 2)]).heterogeneity.Q ≤
        (((VC.meta_analysis E0 Model.random [(1, 1), (2, 2)]).heterogeneity.df : ℤ) : ℚ) →
      (VC.meta_analysis E0 Model.random [(1, 1), (2, 2)]).heterogeneity.tau2 = 0) :=
  tau2_nonneg_truncated E0 Model.random [(1, 1), (2, 2)] (by decide)

/-- Per-study percentages `w / (sum of w) * 100` over a nonempty list of
positive weights sum exactly to 100. -/
lemma pct_sum_eq_100 (l : List ℚ) (hpos : ∀ x ∈ l, 0 < x)
    (hne : l ≠ []) : (l.map fun w => w / l.sum * 100).sum = 100 := by
  have hS : 0 < l.sum := List.sum_pos l hpos hne
  have hfun : (fun w : ℚ => w / l.sum * 100) =
      fun w : ℚ => w * (100 / l.sum) := by
    funext w
    ring
  rw [hfun, List.sum_map_mul_right]
  simp only [List.map_id']
  field_simp

/-- Claim C5: for every nonempty study set with positive variances, the
per-study weight percentages sum to `100 ± 1e-6` within one model, under
both the fixed-effect and the random-effects model — in
`meta_analysis` of validate-comprehensive and in the module-level
weights of validate-gold-standard (the exact rational sums equal 100,
hence lie within the tolerance). -/
theorem weight_percentages_sum (E : Externals) (m : Model)
    (es : List (ℚ × ℚ)) (hne : es ≠ []) (hv : ∀ p ∈ es, 0 < p.2) :
    |(VC.meta_analysis E m es).weights_fe.sum - 100| ≤ 1 / 1000000 ∧
    |(VC.meta_analysis E m es).weights_re.sum - 100| ≤ 1 / 1000000 ∧
    |(GS.stats E es).weights_fe_pct.sum - 100| ≤ 1 / 1000000 ∧
    |(GS.stats E es).weights_re_pct.sum - 100| ≤ 1 / 1000000 := by
  have h100 : ∀ l : List ℚ, (∀ x ∈ l, 0 < x) → l ≠ [] →
      |(l.map fun w => w / l.sum * 100).sum - 100| ≤ 1 / 1000000 := by
    intro l hp hn
    rw [pct_sum_eq_100 l hp hn]
    norm_num
  have hfe_pos : ∀ x ∈ es.map fun p => 1 / p.2, 0 < x := by
    intro x hx
    obtain ⟨p, hp, rfl⟩ := List.mem_map.1 hx
    exact div_pos one_pos (hv p hp)
  have hfe_ne : (es.map fun p => 1 / p.2) ≠ [] := by
    simpa using hne
  have hre_pos : ∀ t2 : ℚ, 0 ≤ t2 →
      ∀ x ∈ es.map fun p => 1 / (p.2 + t2), 0 < x := by
    intro t2 ht2 x hx
    obtain ⟨p, hp, rfl⟩ := List.mem_map.1 hx
    have := hv p hp
    exact div_pos one_pos (by linarith)
  have hre_ne : ∀ t2 : ℚ, (es.map fun p => 1 / (p.2 + t2)) ≠ [] := by
    intro t2
    simpa using hne
  refine ⟨?_, ?_, ?_, ?_⟩
  · by_cases hdf : (es.length : ℤ) - 1 ≤ 0
    · simp only [VC.meta_analysis, if_pos hdf]
      exact h100 _ hfe_pos hfe_ne
    · simp only [VC.meta_analysis, if_neg hdf]
      exact h100 _ hfe_pos hfe_ne
  · by_cases hdf : (es.length : ℤ) - 1 ≤ 0
    · simp only [VC.meta_analysis, if_pos hdf]
      exact h100 _ hfe_pos hfe_ne
    · simp only [VC.meta_analysis, if_neg hdf]
      exact h100 _ (hre_pos _ (le_max_left 0 _)) (hre_ne _)
  · simp only [GS.stats]
    exact h100 _ hfe_pos hfe_ne
  · simp only [GS.stats]
    exact h100 _ (hre_pos _ (le_max_left 0 _)) (hre_ne _)

/-- Concrete instantiation of `weight_percentages_sum` at the two-study
list `[(1, 1), (2, 2)]`. -/
theorem weight_percentages_sum_witness :
    |(VC.meta_analysis E0 Model.random [(1, 1), (2, 2)]).weights_fe.sum - 100| ≤ 1 / 1000000 ∧
    |(VC.meta_analysis E0 Model.random [(1, 1), (2, 2)]).weights_re.sum - 100| ≤ 1 / 1000000 ∧
    |(GS.stats E0 [(1, 1), (2, 2)]).weights_fe_pct.sum - 100| ≤ 1 / 1000000 ∧
    |(GS.stats E0 [(1, 1), (2, 2)]).weights_re_pct.sum - 100| ≤ 1 / 1000000 :=
  weight_percentages_sum E0 Model.random [(1, 1), (2, 2)]
    (by decide) (by decide)

/-- Claim C6: the heterogeneity result of `meta_analysis` depends only
on the multiset of effect sizes, not their order: permuting the list of
`(yi, vi)` pairs leaves `Q, df, pValue, tau2, tau, I2, H2` unchanged
(every aggregate is a length or a sum of a per-study map, and both are
permutation invariant). -/
theorem het_perm_invariant (E : Externals) (m : Model)
    (es es' : List (ℚ × ℚ)) (hp : es.Perm es')
    (hv : ∀ p ∈ es, 0 < p.2) :
    (VC.meta_analysis E m es).heterogeneity =
      (VC.meta_analysis E m es').heterogeneity := by
  have hlen : es'.length = es.length := hp.length_eq.symm
  have hsum : ∀ f : ℚ × ℚ → ℚ, (es'.map f).sum = (es.map f).sum :=
    fun f => ((hp.map f).sum_eq).symm
  by_cases hdf : (es.length : ℤ) - 1 ≤ 0
  · simp only [VC.meta_analysis, hlen, hsum, if_pos hdf]
  · simp only [VC.meta_analysis, hlen, hsum, if_neg hdf]

/-- Concrete instantiation of `het_perm_invariant` at the swapped
two-study lists `[(1, 1), (2, 2)]` and `[(2, 2), (1, 1)]`. -/
theorem het_perm_invariant_witness :
    (VC.meta_analysis E0 Model.random [(1, 1), (2, 2)]).heterogeneity =
      (VC.meta_analysis E0 Model.random [(2, 2), (1, 1)]).heterogeneity :=
  het_perm_invariant E0 Model.random [(1, 1), (2, 2)] [(2, 2), (1, 1)]
    (by decide) (by decide)

/-- A `pydiv` with zero denominator raises. -/
lemma pydiv_zero (a b : ℚ) (h : b = 0) : pydiv a b = .error () := by
  simp [pydiv, h]

/-- A `pydiv` with nonzero denominator returns the exact quotient. -/
lemma pydiv_ok (a b : ℚ) (h : b ≠ 0) : pydiv a b = .ok (a / b) := by
  simp [pydiv, h]

/-- A raised error propagates through the rest of the computation. -/
lemma error_bind {α β : Type} (f : α → Except Unit β) :
    (Except.error () >>= f) = (Except.error () : Except Unit β) := rfl

/-- A successful step passes its value to the rest of the computation. -/
lemma ok_bind {α β : Type} (a : α) (f : α → Except Unit β) :
    (Except.ok a >>= f) = f a := rfl

/-- Claim C2: a study whose chosen measure requires a zero denominator
(a zero 2x2 cell in the uncorrected log-odds-ratio path of
validate-gold-standard), or whose sample sizes give
`df = n1 + n2 - 2 ≤ 0` in the pooled-SD step of `hedges_g`, makes the
effect-size calculation fail with a raised division-by-zero domain
error — no value (in particular no NaN or infinity) is returned to
downstream stages. -/
theorem effect_size_domain_errors (E : Externals) (e1 t1 e2 t2 : ℤ)
    (hcell : e1 = 0 ∨ t1 - e1 = 0 ∨ e2 = 0 ∨ t2 - e2 = 0)
    (m1 s1 m2 s2 : ℚ) (n1 n2 : ℕ)
    (hdf : (n1 : ℤ) + (n2 : ℤ) - 2 ≤ 0) :
    GS.log_odds E e1 t1 e2 t2 = .error () ∧
    VC.hedges_g E m1 s1 n1 m2 s2 n2 = .error () := by
  constructor
  · rcases hcell with h | h | h | h
    · by_cases hbc : ((t1 - e1 : ℤ) : ℚ) * ((e2 : ℤ) : ℚ) = 0
      · simp only [GS.log_odds, pydiv_zero _ _ hbc, error_bind]
      · have h0 : ((e1 : ℤ) : ℚ) = 0 := by exact_mod_cast h
        simp only [GS.log_odds, pydiv_ok _ _ hbc, ok_bind,
          pydiv_zero 1 _ h0, error_bind]
    · have hb0 : ((t1 - e1 : ℤ) : ℚ) = 0 := by exact_mod_cast h
      have hbc : ((t1 - e1 : ℤ) : ℚ) * ((e2 : ℤ) : ℚ) = 0 := by
        rw [hb0, zero_mul]
      simp only [GS.log_odds, pydiv_zero _ _ hbc, error_bind]
    · have hc0 : ((e2 : ℤ) : ℚ) = 0 := by exact_mod_cast h
      have hbc : ((t1 - e1 : ℤ) : ℚ) * ((e2 : ℤ) : ℚ) = 0 := by
        rw [hc0, mul_zero]
      simp only [GS.log_odds, pydiv_zero _ _ hbc, error_bind]
    · by_cases hbc : ((t1 - e1 : ℤ) : ℚ) * ((e2 : ℤ) : ℚ) = 0
      · simp only [GS.log_odds, pydiv_zero _ _ hbc, error_bind]
      · have hb : ((t1 - e1 : ℤ) : ℚ) ≠ 0 := fun hz => hbc (by rw [hz, zero_mul])
        have hc : ((e2 : ℤ) : ℚ) ≠ 0 := fun hz => hbc (by rw [hz, mul_zero])
        have hd0 : ((t2 - e2 : ℤ) : ℚ) = 0 := by exact_mod_cast h
        by_cases ha : ((e1 : ℤ) : ℚ) = 0
        · simp only [GS.log_odds, pydiv_ok _ _ hbc, ok_bind,
            pydiv_zero 1 _ ha, error_bind]
        · simp only [GS.log_odds, pydiv_ok _ _ hbc, ok_bind,
            pydiv_ok 1 _ ha, pydiv_ok 1 _ hb, pydiv_ok 1 _ hc,
            pydiv_zero 1 _ hd0, error_bind]
  · by_cases hd0 : (n1 : ℤ) + (n2 : ℤ) - 2 = 0
    · have hq : (((n1 : ℤ) + (n2 : ℤ) - 2 : ℤ) : ℚ) = 0 := by
        exact_mod_cast hd0
      simp only [VC.hedges_g, pydiv_zero _ _ hq, error_bind]
    · have hq : (((n1 : ℤ) + (n2 : ℤ) - 2 : ℤ) : ℚ) ≠ 0 := by
        exact_mod_cast hd0
      have hj : 4 * (((n1 : ℤ) + (n2 : ℤ) - 2 : ℤ) : ℚ) - 1 ≠ 0 := by
        intro hz
        have h4 : ((4 * ((n1 : ℤ) + (n2 : ℤ) - 2) - 1 : ℤ) : ℚ) = 0 := by
          push_cast at hz ⊢
          linarith
        have h5 : 4 * ((n1 : ℤ) + (n2 : ℤ) - 2) - 1 = 0 := by
          exact_mod_cast h4
        omega
      have hone : n1 + n2 ≤ 1 := by omega
      have hmul : (n1 : ℚ) * (n2 : ℚ) = 0 := by
        have : n1 = 0 ∨ n2 = 0 := by omega
        rcases this with h | h <;> simp [h]
      simp only [VC.hedges_g, pydiv_ok _ _ hq, ok_bind, pydiv_ok 3 _ hj,
        pydiv_zero _ _ hmul, error_bind]

/-- Concrete instantiation of `effect_size_domain_errors`: the
zero-cell study `events1=0, total1=20, events2=5, total2=22` on the
uncorrected log-odds-ratio path, and a `Hedges' g` study with
`n1 = n2 = 1` (`df = 0`). -/
theorem effect_size_domain_errors_witness :
    GS.log_odds E0 0 20 5 22 = .error () ∧
    VC.hedges_g E0 1 1 1 1 1 1 = .error () :=
  effect_size_domain_errors E0 0 20 5 22 (Or.inl rfl) 1 1 1 1 1 1
    (by decide)

/-- Claim C8, counterexample: for an empty study set (`k = 0 < 3`) the
Egger computation does not produce a defined result — the Python-level
division `1.0 / n_egger` in the intercept standard error raises
`ZeroDivisionError` (everything before it being total numpy NaN
arithmetic), so the component errors rather than returning a
limited-validity result. -/
theorem egger_empty_errors :
    GS.eggers_test E0 [] = .error () := rfl

/-- Claim C8, amended: for a nonempty publication-bias-test input with
fewer than 3 studies (`df = k - 2 < 1`), the Egger regression is a
degenerate case that produces a defined, limited-validity result
(reporting `df = k - 2`, with NaN/infinite statistics from the
zero-degrees-of-freedom residual variance) rather than raising; with
zero studies it raises a division-by-zero error instead. -/
theorem egger_degenerate_defined (E : Externals) (es : List (ℚ × ℚ))
    (hne : es ≠ []) (hk : es.length < 3) :
    ∃ r : EggerResult, GS.eggers_test E es = .ok r ∧
      r.df = (es.length : ℤ) - 2 := by
  have hn : ((es.length : ℕ) : ℚ) ≠ 0 := by
    have : es.length ≠ 0 := by
      simpa [List.length_eq_zero] using hne
    exact_mod_cast this
  simp only [GS.eggers_test, pydiv_ok 1 _ hn, ok_bind]
  exact ⟨_, rfl, rfl⟩

/-- Concrete instantiation of `egger_degenerate_defined` at the
two-study list `[(1, 1), (2, 2)]`. -/
theorem egger_degenerate_defined_witness :
    ∃ r : EggerResult,
      GS.eggers_test E0 [(1, 1), (2, 2)] = .ok r ∧
      r.df = (([(1, 1), (2, 2)] : List (ℚ × ℚ)).length : ℤ) - 2 :=
  egger_degenerate_defined E0 [(1, 1), (2, 2)] (by decide) (by decide)

end MetaReview
